import Mathlib

/-!
Shallow embedding of `plover-evdevd-rs` (src/plover-evdevd-rs/src/main.rs and
src/plover-evdevd-rs/src/evdev.rs) for checking the specification claims.

The program has three pure cores:
* `listen_kb` (main.rs lines 35-67): per hardware event, update the held-modifier
  list, then either report a suppressed key on stdout or forward the event to the
  virtual device.  Embedded as a step function on the modifier list producing the
  report lines and forwarded events.
* `listen_stdio` (main.rs lines 69-111): a loop reading control lines; each line is
  byte-sliced (`&line[1..line.len() - 1]`, which panics off UTF-8 char boundaries)
  and dispatched on its first character.  Embedded at the byte level, with `Option`
  modelling the panic.
* `find_first_keyboard` (main.rs lines 29-33) over `Device::list` (evdev.rs 33-37).

Machine integers (u16 key codes, i32 event values) are embedded as `Nat`/`Int`;
the only place the u16 width matters is `u16::from_str`, whose bound is explicit.
-/

namespace Plover

/-- `pub struct Key(pub u16)` (evdev.rs line 216): a newtype over the numeric key
code, equality by value. -/
structure Key where
  code : Nat
deriving DecidableEq, Repr

/-- `Key::KEY_A = Key(30)` (evdev.rs line 219), the probe key. -/
def KEY_A : Key := ⟨30⟩

/-- `MODIFIER_KEYS` (main.rs lines 14-23): the eight fixed modifier keys
(left/right shift 42/54, ctrl 29/97, alt 56/100, meta 125/126). -/
def MODIFIER_KEYS : List Key := [⟨42⟩, ⟨54⟩, ⟨29⟩, ⟨97⟩, ⟨56⟩, ⟨100⟩, ⟨125⟩, ⟨126⟩]

/-- `enum Event` (evdev.rs lines 166-171): synchronization marker, key event, or
opaque pass-through payload. -/
inductive Event where
  | Syn : Event
  | Key (key : Key) (pressed : Bool) : Event
  | Other (type_ : Nat) (code : Nat) (value : Int) : Event
deriving DecidableEq, Repr

/-- `EV_SYN` (evdev.rs line 212). -/
def EV_SYN : Nat := 0
/-- `EV_KEY` (evdev.rs line 213). -/
def EV_KEY : Nat := 1

/-- `impl From<sys::input_event> for Event` (evdev.rs lines 173-181): decode a raw
kernel event; a key event is pressed iff its raw value is nonzero. -/
def eventFromRaw (type_ : Nat) (code : Nat) (value : Int) : Event :=
  if type_ = EV_SYN then Event.Syn
  else if type_ = EV_KEY then Event.Key ⟨code⟩ (value != 0)
  else Event.Other type_ code value

/-- The modifier-tracking update of `listen_kb` (main.rs lines 44-52): on press,
push the key only when it is already contained; on release, retain all elements
different from the key; non-modifier keys leave the list unchanged. -/
def updateModifiers (modifiers : List Key) (key : Key) (pressed : Bool) : List Key :=
  if key ∈ MODIFIER_KEYS then
    if pressed then
      if key ∈ modifiers then modifiers ++ [key] else modifiers
    else
      modifiers.filter (fun k => k ≠ key)
  else modifiers

/-- The stdout line written for a suppressed key (main.rs lines 55-57):
`'d'` or `'u'` followed by the decimal key code. -/
def reportLine (key : Key) (pressed : Bool) : String :=
  (if pressed then "d" else "u") ++ Nat.repr key.code

/-- Result of one iteration of the `listen_kb` event loop: the new modifier list,
the lines written to stdout, and the events written to the virtual device. -/
structure KbOut where
  modifiers : List Key
  report : List String
  forwarded : List Event
deriving DecidableEq, Repr

/-- One iteration of the `listen_kb` loop body (main.rs lines 42-66) with the
suppression set held fixed for the iteration (the lock is taken per event). -/
def listen_kb_step (suppress : Finset Key) (modifiers : List Key) (event : Event) :
    KbOut :=
  match event with
  | Event.Key key pressed =>
      let modifiers := updateModifiers modifiers key pressed
      if key ∈ suppress ∧ modifiers.length = 0 then
        { modifiers := modifiers, report := [reportLine key pressed], forwarded := [] }
      else
        { modifiers := modifiers, report := [], forwarded := [Event.Key key pressed] }
  | e => { modifiers := modifiers, report := [], forwarded := [e] }

/-- The `listen_kb` loop run over a finite event list from a given modifier state,
collecting stdout lines and forwarded events in order. -/
def listen_kb_run (suppress : Finset Key) (modifiers : List Key) :
    List Event → List String × List Event
  | [] => ([], [])
  | e :: es =>
      let r := listen_kb_step suppress modifiers e
      let rest := listen_kb_run suppress r.modifiers es
      (r.report ++ rest.1, r.forwarded ++ rest.2)

/-- The modifier list reached after processing an event list, starting from the
empty list `listen_kb` initializes (main.rs line 40).  The update does not read
the suppression set, so this is the modifier state of every run. -/
def kbModifiers (events : List Event) : List Key :=
  events.foldl
    (fun mods e =>
      match e with
      | Event.Key k p => updateModifiers mods k p
      | _ => mods)
    []

/-! ## Control listener (`listen_stdio`)

A control line is a `List Nat` of bytes (the UTF-8 bytes `read_line` appends,
newline included).  The source slices the line by byte index,
`&line[1..line.len() - 1]` (main.rs line 81), which panics unless both indices
are UTF-8 char boundaries and the range is well formed; `Option` models that
panic.  `line.chars().next()` is modelled by the first byte: for valid UTF-8 the
first char is `'d'`/`'u'`/`'s'` exactly when the first byte is 100/117/115, and
every multi-byte first char has first byte at least 0xC2, matching the `_` arm. -/

/-- A UTF-8 continuation byte (0x80..0xBF).  Rust's `str::is_char_boundary`
accepts an in-range index exactly when the byte there is not a continuation
byte. -/
def isContinuationByte (b : Nat) : Bool :=
  decide (128 ≤ b) && decide (b < 192)

/-- Rust `str::is_char_boundary` on a byte string: index 0 and the length are
boundaries; an interior index is one iff its byte is not a continuation byte. -/
def isCharBoundary (bytes : List Nat) (p : Nat) : Bool :=
  p == 0 ||
    match bytes[p]? with
    | some b => !(isContinuationByte b)
    | none => p == bytes.length

/-- Rust `&s[a..b]` on a byte string: `some` sub-slice when the range is well
formed and both ends are char boundaries, `none` (panic) otherwise. -/
def sliceStr (bytes : List Nat) (a b : Nat) : Option (List Nat) :=
  if a ≤ b ∧ b ≤ bytes.length ∧
      isCharBoundary bytes a = true ∧ isCharBoundary bytes b = true then
    some ((bytes.drop a).take (b - a))
  else none

/-- The optional leading `'+'` (byte 43) accepted by Rust integer `from_str`. -/
def stripSign (bytes : List Nat) : List Nat :=
  match bytes with
  | b :: rest => if b = 43 then rest else b :: rest
  | [] => []

/-- The value of a list of ASCII digit bytes, most significant first. -/
def digitsVal (digits : List Nat) : Nat :=
  digits.foldl (fun a b => a * 10 + (b - 48)) 0

/-- Rust `u16::from_str` (the type `content.parse()` resolves to in main.rs):
an optional leading `'+'`, then at least one ASCII digit and nothing else, with
the value below 2^16.  The accumulator is monotone over digit steps, so checking
the final value against the bound is equivalent to Rust's per-step overflow
check. -/
def parseU16 (bytes : List Nat) : Option Nat :=
  let digits := stripSign bytes
  if digits ≠ [] ∧ (∀ b ∈ digits, 48 ≤ b ∧ b ≤ 57) ∧ digitsVal digits < 65536 then
    some (digitsVal digits)
  else none

/-- The loop body of the `'s'` arm (main.rs lines 99-103): insert the token into
the set under construction when it parses, else skip it. -/
def insertTok (s : Finset Key) (tok : List Nat) : Finset Key :=
  match parseU16 tok with
  | some code => insert (Key.mk code) s
  | none => s

/-- The `'s'` arm of `listen_stdio` (main.rs lines 97-106): split the body on
single spaces (Rust `str::split(' ')`, which `List.splitOn 32` matches, empty
pieces included), insert every token that parses into a fresh set. -/
def parse_suppress_set (content : List Nat) : Finset Key :=
  (List.splitOn 32 content).foldl insertTok ∅

/-- One iteration of the `listen_stdio` loop body on an already-read line
(main.rs lines 80-109): `none` is a panic of the thread (the byte slice at line
81 is computed before the dispatch on the first character); `some (s, ws)` gives
the suppression set after the line and the events written to the virtual
device. -/
def listen_stdio_line (suppress : Finset Key) (line : List Nat) :
    Option (Finset Key × List Event) :=
  match line with
  | [] => some (suppress, [])
  | b :: _ =>
      match sliceStr line 1 (line.length - 1) with
      | none => none
      | some content =>
          if b = 100 then
            match parseU16 content with
            | some code => some (suppress, [Event.Key ⟨code⟩ true, Event.Syn])
            | none => some (suppress, [])
          else if b = 117 then
            match parseU16 content with
            | some code => some (suppress, [Event.Key ⟨code⟩ false, Event.Syn])
            | none => some (suppress, [])
          else if b = 115 then
            some (parse_suppress_set content, [])
          else
            some (suppress, [])

/-- `listen_stdio` run over a finite list of lines, threading the suppression
set and collecting the virtual-device writes in order; `none` once any line
panics. -/
def listen_stdio_lines (suppress : Finset Key) :
    List (List Nat) → Option (Finset Key × List Event)
  | [] => some (suppress, [])
  | l :: ls =>
      match listen_stdio_line suppress l with
      | none => none
      | some (s, ws) =>
          match listen_stdio_lines s ls with
          | none => none
          | some (s2, ws2) => some (s2, ws ++ ws2)

/-- State of the `listen_stdio` loop (main.rs lines 76-110): the control input
not yet consumed and the current suppression set, plus the writes made so far. -/
structure StdioState where
  input : List (List Nat)
  suppress : Finset Key
  writes : List Event
deriving DecidableEq

/-- `BufRead::read_line` on the remaining input: the next line when one is
left; at end of input it returns `Ok(0)` and leaves the cleared buffer empty,
so the loop sees the empty line and the input stays exhausted. -/
def read_line : List (List Nat) → List Nat × List (List Nat)
  | [] => ([], [])
  | l :: ls => (l, ls)

/-- One full iteration of the `listen_stdio` loop (main.rs lines 76-110): read a
line, process it.  The loop body has no `break` or `return`: its only outcomes
are another iteration (`some`) or a panic (`none`); there is no termination
outcome to model. -/
def stdioStep (st : StdioState) : Option StdioState :=
  let r := read_line st.input
  match listen_stdio_line st.suppress r.1 with
  | none => none
  | some (s, ws) => some ⟨r.2, s, st.writes ++ ws⟩

/-- `n` iterations of the `listen_stdio` loop. -/
def stdioIter : Nat → StdioState → Option StdioState
  | 0, st => some st
  | n + 1, st =>
      match stdioStep st with
      | none => none
      | some st2 => stdioIter n st2

/-! ## Keyboard selector -/

/-- `UINPUT_NAME` (main.rs line 12). -/
def UINPUT_NAME : String := "Plover"

/-- What `find_first_keyboard` observes of a device: its reported name and its
key-capability query (evdev.rs lines 59-66). -/
structure DeviceInfo where
  name : String
  has_key : Key → Bool

/-- `is_keyboard` (main.rs lines 25-27). -/
def is_keyboard (dev : DeviceInfo) : Bool :=
  dev.name != UINPUT_NAME && dev.has_key KEY_A

/-- `Device::list` (evdev.rs lines 33-37): the glob enumeration yields open
attempts in order; failures (`None`) are dropped by the `filter_map`. -/
def Device.list (opened : List (Option DeviceInfo)) : List DeviceInfo :=
  opened.filterMap id

/-- `find_first_keyboard` (main.rs lines 29-33): the first enumerated device
satisfying `is_keyboard`; `none` models the fatal `.expect("No keyboards
found")`. -/
def find_first_keyboard (opened : List (Option DeviceInfo)) : Option DeviceInfo :=
  (Device.list opened).find? is_keyboard

/-! ## Byte encodings for concrete scenarios -/

/-- UTF-8 encoding of a scalar value. -/
def charUtf8 (c : Nat) : List Nat :=
  if c < 128 then [c]
  else if c < 2048 then [192 + c / 64, 128 + c % 64]
  else if c < 65536 then [224 + c / 4096, 128 + c / 64 % 64, 128 + c % 64]
  else [240 + c / 262144, 128 + c / 4096 % 64, 128 + c / 64 % 64, 128 + c % 64]

/-- The UTF-8 bytes of a string, for writing concrete control lines. -/
def lineBytes (s : String) : List Nat :=
  (s.toList.map (fun c => charUtf8 c.toNat)).flatten

/-- Decimal digits of `n`, most significant first, as ASCII bytes — the bytes
Rust's `Display` for an unsigned integer produces for the body of a `d`/`u`
control line. -/
def decimalBytes (n : Nat) : List Nat :=
  if h : n < 10 then [48 + n]
  else decimalBytes (n / 10) ++ [48 + n % 10]
decreasing_by exact Nat.div_lt_self (by omega) (by omega)

/-! ## Helper lemmas -/

lemma updateModifiers_nil (key : Key) (pressed : Bool) :
    updateModifiers [] key pressed = [] := by
  unfold updateModifiers
  split
  · split
    · simp
    · rfl
  · rfl

lemma kbModifiers_eq_nil (events : List Event) : kbModifiers events = [] := by
  unfold kbModifiers
  induction events with
  | nil => rfl
  | cons e es ih =>
      rw [List.foldl_cons]
      cases e with
      | Syn => exact ih
      | Key k p =>
          simp only [updateModifiers_nil]
          exact ih
      | Other t c v => exact ih

/-- Equation of the `listen_kb` loop body on a key event. -/
lemma listen_kb_step_key (suppress : Finset Key) (mods : List Key) (key : Key)
    (pressed : Bool) :
    listen_kb_step suppress mods (Event.Key key pressed) =
      if key ∈ suppress ∧ (updateModifiers mods key pressed).length = 0 then
        ⟨updateModifiers mods key pressed, [reportLine key pressed], []⟩
      else
        ⟨updateModifiers mods key pressed, [], [Event.Key key pressed]⟩ := rfl

/-- The press branch of the modifier update for a modifier key. -/
lemma updateModifiers_press (mods : List Key) (key : Key)
    (hmod : key ∈ MODIFIER_KEYS) :
    updateModifiers mods key true =
      if key ∈ mods then mods ++ [key] else mods := by
  unfold updateModifiers
  rw [if_pos hmod]
  rfl

/-- The release branch of the modifier update for a modifier key. -/
lemma updateModifiers_release (mods : List Key) (key : Key)
    (hmod : key ∈ MODIFIER_KEYS) :
    updateModifiers mods key false = mods.filter (fun k => k ≠ key) := by
  unfold updateModifiers
  rw [if_pos hmod]
  rfl

/-- The modifier update ignores non-modifier keys. -/
lemma updateModifiers_notmod (mods : List Key) (key : Key) (pressed : Bool)
    (hmod : key ∉ MODIFIER_KEYS) :
    updateModifiers mods key pressed = mods := by
  unfold updateModifiers
  rw [if_neg hmod]

/-- The `listen_kb` loop body on a key event, from the empty modifier list, when
the key is in the suppression set. -/
lemma listen_kb_step_empty_suppressed (suppress : Finset Key) (key : Key)
    (pressed : Bool) (hk : key ∈ suppress) :
    listen_kb_step suppress [] (Event.Key key pressed)
      = ⟨[], [reportLine key pressed], []⟩ := by
  unfold listen_kb_step
  simp only [updateModifiers_nil]
  rw [if_pos ⟨hk, rfl⟩]

/-- The byte at index 1 of a control line `first-byte :: body ++ newline`. -/
lemma line_getElem_one (b : Nat) (body : List Nat) :
    (b :: body ++ [10])[1]? = some (body.headD 10) := by
  cases body <;> simp

/-- The byte slice `&line[1..line.len() - 1]` succeeds on a newline-terminated
line whose second byte is not a UTF-8 continuation byte, and yields the body. -/
lemma sliceStr_line (b : Nat) (body : List Nat)
    (h : isContinuationByte (body.headD 10) = false) :
    sliceStr (b :: body ++ [10]) 1 ((b :: body ++ [10]).length - 1) = some body := by
  have hlen : (b :: body ++ [10]).length = body.length + 2 := by simp
  have hb1 : isCharBoundary (b :: body ++ [10]) 1 = true := by
    unfold isCharBoundary
    rw [line_getElem_one]
    simpa using h
  have hb2 : isCharBoundary (b :: body ++ [10]) (body.length + 1) = true := by
    unfold isCharBoundary
    have hidx : (b :: body ++ [10])[body.length + 1]? = some 10 := by
      rw [show b :: body ++ [10] = (b :: body) ++ [10] from rfl,
        List.getElem?_append_right (by simp)]
      simp
    rw [hidx]
    simp [isContinuationByte]
  unfold sliceStr
  rw [hlen]
  rw [if_pos ⟨by omega, by omega, by simpa using hb1, by simpa using hb2⟩]
  have hdrop : (b :: body ++ [10]).drop 1 = body ++ [10] := rfl
  rw [hdrop, show body.length + 2 - 1 - 1 = body.length from by omega, List.take_left]

/-- One `listen_stdio` iteration on a newline-terminated line, rewritten as the
dispatch on the first byte with the body as content. -/
lemma listen_stdio_line_cons (s : Finset Key) (b : Nat) (body : List Nat)
    (h : isContinuationByte (body.headD 10) = false) :
    listen_stdio_line s (b :: body ++ [10]) =
      if b = 100 then
        match parseU16 body with
        | some code => some (s, [Event.Key ⟨code⟩ true, Event.Syn])
        | none => some (s, [])
      else if b = 117 then
        match parseU16 body with
        | some code => some (s, [Event.Key ⟨code⟩ false, Event.Syn])
        | none => some (s, [])
      else if b = 115 then some (parse_suppress_set body, [])
      else some (s, []) := by
  unfold listen_stdio_line
  rw [sliceStr_line b body h]
  rfl

lemma decimalBytes_digits (n : Nat) : ∀ b ∈ decimalBytes n, 48 ≤ b ∧ b ≤ 57 := by
  induction n using Nat.strong_induction_on with
  | _ n ih =>
      rw [decimalBytes]
      split
      · next h =>
          intro b hb
          simp only [List.mem_singleton] at hb
          omega
      · next h =>
          intro b hb
          rw [List.mem_append] at hb
          rcases hb with hb | hb
          · exact ih (n / 10) (Nat.div_lt_self (by omega) (by omega)) b hb
          · simp only [List.mem_singleton] at hb
            omega

lemma decimalBytes_ne_nil (n : Nat) : decimalBytes n ≠ [] := by
  rw [decimalBytes]
  split
  · simp
  · simp

lemma digitsVal_append_digit (xs : List Nat) (y : Nat) :
    digitsVal (xs ++ [y]) = digitsVal xs * 10 + (y - 48) := by
  unfold digitsVal
  rw [List.foldl_append]
  rfl

lemma digitsVal_decimalBytes (n : Nat) : digitsVal (decimalBytes n) = n := by
  induction n using Nat.strong_induction_on with
  | _ n ih =>
      rw [decimalBytes]
      split
      · next h =>
          simp [digitsVal]
      · next h =>
          rw [digitsVal_append_digit,
            ih (n / 10) (Nat.div_lt_self (by omega) (by omega))]
          omega

lemma parseU16_decimalBytes (n : Nat) (h : n < 65536) :
    parseU16 (decimalBytes n) = some n := by
  have hd := decimalBytes_digits n
  have hs : stripSign (decimalBytes n) = decimalBytes n := by
    cases hb : decimalBytes n with
    | nil => rfl
    | cons b rest =>
        have hbd : 48 ≤ b ∧ b ≤ 57 := by
          apply hd
          rw [hb]
          exact List.mem_cons_self b rest
        show (if b = 43 then rest else b :: rest) = b :: rest
        rw [if_neg (by omega)]
  unfold parseU16
  rw [hs, if_pos ⟨decimalBytes_ne_nil n, hd, by rw [digitsVal_decimalBytes]; omega⟩,
    digitsVal_decimalBytes]

lemma decimalBytes_head_ok (n : Nat) :
    isContinuationByte ((decimalBytes n).headD 10) = false := by
  have hd := decimalBytes_digits n
  have hlt : (decimalBytes n).headD 10 < 128 := by
    cases hb : decimalBytes n with
    | nil => simp
    | cons b rest =>
        have hbd : 48 ≤ b ∧ b ≤ 57 := by
          apply hd
          rw [hb]
          exact List.mem_cons_self b rest
        simp only [List.headD_cons]
        omega
  simp only [isContinuationByte, Bool.and_eq_false_iff, decide_eq_false_iff_not]
  omega

lemma insertTok_of_none (s : Finset Key) (tok : List Nat)
    (hp : parseU16 tok = none) : insertTok s tok = s := by
  unfold insertTok
  rw [hp]

lemma insertTok_of_some (s : Finset Key) (tok : List Nat) (c : Nat)
    (hp : parseU16 tok = some c) : insertTok s tok = insert (Key.mk c) s := by
  unfold insertTok
  rw [hp]

lemma mem_parse_fold (toks : List (List Nat)) (acc : Finset Key) (k : Key) :
    k ∈ toks.foldl insertTok acc
      ↔ k ∈ acc ∨ ∃ tok ∈ toks, parseU16 tok = some k.code := by
  induction toks generalizing acc with
  | nil => simp
  | cons t ts ih =>
      rw [List.foldl_cons]
      cases hp : parseU16 t with
      | none =>
          rw [insertTok_of_none acc t hp, ih]
          constructor
          · rintro (h | ⟨tok, htok, hpt⟩)
            · exact Or.inl h
            · exact Or.inr ⟨tok, List.mem_cons_of_mem t htok, hpt⟩
          · rintro (h | ⟨tok, htok, hpt⟩)
            · exact Or.inl h
            · rcases List.mem_cons.mp htok with rfl | htok2
              · rw [hp] at hpt
                cases hpt
              · exact Or.inr ⟨tok, htok2, hpt⟩
      | some c =>
          rw [insertTok_of_some acc t c hp, ih]
          constructor
          · rintro (h | ⟨tok, htok, hpt⟩)
            · rcases Finset.mem_insert.mp h with rfl | h2
              · exact Or.inr ⟨t, List.mem_cons_self t ts, by rw [hp]⟩
              · exact Or.inl h2
            · exact Or.inr ⟨tok, List.mem_cons_of_mem t htok, hpt⟩
          · rintro (h | ⟨tok, htok, hpt⟩)
            · exact Or.inl (Finset.mem_insert_of_mem h)
            · rcases List.mem_cons.mp htok with rfl | htok2
              · rw [hp] at hpt
                injection hpt with hc
                refine Or.inl (Finset.mem_insert.mpr (Or.inl ?_))
                rw [hc]
              · exact Or.inr ⟨tok, htok2, hpt⟩

lemma mem_parse_suppress_set (content : List Nat) (k : Key) :
    k ∈ parse_suppress_set content ↔
      ∃ tok ∈ List.splitOn 32 content, parseU16 tok = some k.code := by
  unfold parse_suppress_set
  rw [mem_parse_fold]
  simp

/-- At end of input the `listen_stdio` loop body reads zero bytes, sees the
empty line, and changes nothing: the end-of-input state is a fixed point of the
loop. -/
lemma stdioStep_eof (s : Finset Key) (w : List Event) :
    stdioStep ⟨[], s, w⟩ = some ⟨[], s, w⟩ := by
  simp [stdioStep, read_line, listen_stdio_line]

/-- `List.find?` returns the first element satisfying the predicate: everything
before the hit fails the predicate. -/
lemma find?_first {α : Type} (p : α → Bool) (l : List α) (a : α)
    (h : l.find? p = some a) :
    p a = true ∧
      ∃ pre post, l = pre ++ a :: post ∧ ∀ x ∈ pre, p x = false := by
  induction l with
  | nil => cases h
  | cons x xs ih =>
      by_cases hx : p x = true
      · rw [List.find?_cons_of_pos xs hx] at h
        injection h with h2
        subst h2
        exact ⟨hx, [], xs, rfl, by simp⟩
      · rw [List.find?_cons_of_neg xs hx] at h
        obtain ⟨hpa, pre, post, hsplit, hpre⟩ := ih h
        refine ⟨hpa, x :: pre, post, by rw [hsplit]; rfl, ?_⟩
        intro y hy
        rcases List.mem_cons.mp hy with rfl | hy2
        · simpa using hx
        · exact hpre y hy2

lemma is_keyboard_iff (d : DeviceInfo) :
    is_keyboard d = true ↔ (d.name ≠ UINPUT_NAME ∧ d.has_key KEY_A = true) := by
  unfold is_keyboard
  rw [Bool.and_eq_true, bne_iff_ne]

/-! ## Claims -/

/-- C1: for every incoming hardware event, a Key event whose key is in the
current suppression set while the held-modifier list (as updated by this event)
is empty produces exactly one control-report line, `"d<code>"` on press and
`"u<code>"` on release, and is not forwarded; every other event — a Key event
failing the test, a Synchronization, or an Other event — is forwarded unchanged
to the virtual device and produces no report line. -/
theorem kb_event_suppression_dichotomy (suppress : Finset Key) (mods : List Key)
    (ev : Event) :
    (∀ (key : Key) (pressed : Bool), ev = Event.Key key pressed →
      (key ∈ suppress ∧ updateModifiers mods key pressed = [] →
        listen_kb_step suppress mods ev =
          ⟨updateModifiers mods key pressed,
            [(if pressed then "d" else "u") ++ Nat.repr key.code], []⟩) ∧
      (¬(key ∈ suppress ∧ updateModifiers mods key pressed = []) →
        listen_kb_step suppress mods ev =
          ⟨updateModifiers mods key pressed, [], [ev]⟩)) ∧
    (ev = Event.Syn → listen_kb_step suppress mods ev = ⟨mods, [], [ev]⟩) ∧
    (∀ (t c : Nat) (v : Int), ev = Event.Other t c v →
      listen_kb_step suppress mods ev = ⟨mods, [], [ev]⟩) := by
  refine ⟨?_, ?_, ?_⟩
  · rintro key pressed rfl
    constructor
    · rintro ⟨hk, hm⟩
      rw [listen_kb_step_key, if_pos ⟨hk, by rw [hm]; rfl⟩]
      rfl
    · intro hcond
      rw [listen_kb_step_key, if_neg]
      intro hcond2
      apply hcond
      refine ⟨hcond2.1, ?_⟩
      rw [← List.length_eq_zero]
      exact hcond2.2
  · rintro rfl
    rfl
  · rintro t c v rfl
    rfl

/-- C1 witness: with suppression set {30} and no held modifiers, the press of
key 30 yields the single report line `"d30"` and nothing forwarded. -/
theorem kb_event_suppression_dichotomy_witness :
    listen_kb_step {Key.mk 30} [] (Event.Key ⟨30⟩ true) = ⟨[], ["d30"], []⟩ := by
  have h :=
    ((kb_event_suppression_dichotomy {Key.mk 30} [] (Event.Key ⟨30⟩ true)).1
      ⟨30⟩ true rfl).1 ⟨by decide, by decide⟩
  exact h

/-- C2: on a Key event for one of the eight fixed modifier keys, the held list
is updated before the suppression test — on press the key is appended only when
already present, on release every occurrence is removed (nothing else changes);
non-modifier Key events leave the list unchanged. -/
theorem modifier_tracking_update (mods : List Key) (key : Key) :
    (key ∈ MODIFIER_KEYS →
      (key ∈ mods → updateModifiers mods key true = mods ++ [key]) ∧
      (key ∉ mods → updateModifiers mods key true = mods) ∧
      (key ∉ updateModifiers mods key false ∧
        (updateModifiers mods key false).Sublist mods ∧
        ∀ k : Key, k ≠ key →
          (updateModifiers mods key false).count k = mods.count k)) ∧
    (key ∉ MODIFIER_KEYS → ∀ pressed, updateModifiers mods key pressed = mods) ∧
    (∀ (suppress : Finset Key) (pressed : Bool),
      (listen_kb_step suppress mods (Event.Key key pressed)).modifiers =
        updateModifiers mods key pressed) := by
  refine ⟨?_, ?_, ?_⟩
  · intro hmod
    refine ⟨?_, ?_, ?_, ?_, ?_⟩
    · intro hin
      rw [updateModifiers_press mods key hmod, if_pos hin]
    · intro hout
      rw [updateModifiers_press mods key hmod, if_neg hout]
    · rw [updateModifiers_release mods key hmod]
      simp
    · rw [updateModifiers_release mods key hmod]
      exact List.filter_sublist mods
    · intro k hk
      rw [updateModifiers_release mods key hmod]
      exact List.count_filter (by simpa using hk)
  · intro hmod pressed
    exact updateModifiers_notmod mods key pressed hmod
  · intro suppress pressed
    rw [listen_kb_step_key]
    split <;> rfl

/-- C2 witness: pressing left shift (42) while it is already recorded appends a
duplicate — the inverted duplicate-tracking the source implements. -/
theorem modifier_tracking_update_witness :
    updateModifiers [Key.mk 42] (Key.mk 42) true = [Key.mk 42, Key.mk 42] := by
  have h :=
    ((modifier_tracking_update [Key.mk 42] (Key.mk 42)).1 (by decide)).1 (by decide)
  exact h

/-- C3: starting from the empty list, the held-modifier list is empty after
every finite event sequence — a press appends only when the key is already
present, so nothing is ever added — and consequently the suppression decision
from any reachable state is exactly suppression-set membership. -/
theorem held_modifiers_always_empty (events : List Event) :
    kbModifiers events = [] ∧
    ∀ (suppress : Finset Key) (key : Key) (pressed : Bool),
      ((listen_kb_step suppress (kbModifiers events) (Event.Key key pressed)).report
          = [(if pressed then "d" else "u") ++ Nat.repr key.code]
        ↔ key ∈ suppress) := by
  refine ⟨kbModifiers_eq_nil events, ?_⟩
  intro suppress key pressed
  rw [kbModifiers_eq_nil events]
  by_cases hk : key ∈ suppress
  · rw [listen_kb_step_empty_suppressed suppress key pressed hk]
    simpa [reportLine] using hk
  · unfold listen_kb_step
    simp only [updateModifiers_nil]
    rw [if_neg (by intro hc; exact hk hc.1)]
    constructor
    · intro hrep
      cases hrep
    · intro hks
      exact absurd hks hk

/-- C3 witness: a shift press followed by a key press leaves the held-modifier
list empty. -/
theorem held_modifiers_always_empty_witness :
    kbModifiers [Event.Key ⟨42⟩ true, Event.Key ⟨30⟩ true] = [] := by
  have h := (held_modifiers_always_empty [Event.Key ⟨42⟩ true, Event.Key ⟨30⟩ true]).1
  exact h

/-- C4: an `'s'` control line splits its body on single spaces, keeps exactly
the tokens that parse as unsigned integers (skipping bad tokens without
failing), and replaces the suppression set wholesale, independently of the
previous set; `"s30 31 badtoken"` yields exactly {30, 31} and an empty body
yields the empty set. -/
theorem suppress_set_replaced_wholesale (prev : Finset Key) (body : List Nat)
    (h : isContinuationByte (body.headD 10) = false) :
    listen_stdio_line prev (115 :: body ++ [10])
        = some (parse_suppress_set body, []) ∧
    (∀ k : Key, k ∈ parse_suppress_set body ↔
      ∃ tok ∈ List.splitOn 32 body, parseU16 tok = some k.code) ∧
    listen_stdio_line prev (lineBytes "s30 31 badtoken\n")
        = some ({Key.mk 30, Key.mk 31}, []) ∧
    listen_stdio_line prev (lineBytes "s\n") = some (∅, []) := by
  refine ⟨?_, ?_, ?_, ?_⟩
  · rw [listen_stdio_line_cons prev 115 body h, if_neg (by decide),
      if_neg (by decide), if_pos rfl]
  · intro k
    exact mem_parse_suppress_set body k
  · have h1 : listen_stdio_line prev (lineBytes "s30 31 badtoken\n")
        = some (insert (Key.mk 31) (insert (Key.mk 30) ∅), []) := rfl
    have h2 : (insert (Key.mk 31) (insert (Key.mk 30) ∅) : Finset Key)
        = {Key.mk 30, Key.mk 31} := by
      rw [insert_emptyc_eq]
      exact Finset.pair_comm (Key.mk 31) (Key.mk 30)
    rw [h1, h2]
  · rfl

/-- C4 witness: the body "30" parses, and the resulting line builds the set
from that body alone. -/
theorem suppress_set_replaced_wholesale_witness :
    isContinuationByte (([51, 48] : List Nat).headD 10) = false ∧
    listen_stdio_line {Key.mk 5} (115 :: [51, 48] ++ [10])
      = some (parse_suppress_set [51, 48], []) :=
  ⟨by decide, (suppress_set_replaced_wholesale {Key.mk 5} [51, 48] (by decide)).1⟩

/-- C5: the control line `d<code>` followed by `u<code>` writes exactly
press, sync, release, sync to the virtual device, in that order, leaving the
suppression set unchanged; a `d`/`u` line whose body does not parse writes
nothing. -/
theorem inject_press_release (suppress : Finset Key) (code : Nat)
    (h : code < 65536) :
    listen_stdio_lines suppress
        [100 :: decimalBytes code ++ [10], 117 :: decimalBytes code ++ [10]]
      = some (suppress,
          [Event.Key ⟨code⟩ true, Event.Syn, Event.Key ⟨code⟩ false, Event.Syn]) ∧
    (∀ body : List Nat, parseU16 body = none →
      isContinuationByte (body.headD 10) = false →
      listen_stdio_line suppress (100 :: body ++ [10]) = some (suppress, []) ∧
      listen_stdio_line suppress (117 :: body ++ [10]) = some (suppress, [])) := by
  have hd1 : listen_stdio_line suppress (100 :: decimalBytes code ++ [10])
      = some (suppress, [Event.Key ⟨code⟩ true, Event.Syn]) := by
    rw [listen_stdio_line_cons suppress 100 (decimalBytes code)
      (decimalBytes_head_ok code), if_pos rfl, parseU16_decimalBytes code h]
  have hu1 : listen_stdio_line suppress (117 :: decimalBytes code ++ [10])
      = some (suppress, [Event.Key ⟨code⟩ false, Event.Syn]) := by
    rw [listen_stdio_line_cons suppress 117 (decimalBytes code)
      (decimalBytes_head_ok code), if_neg (by decide), if_pos rfl,
      parseU16_decimalBytes code h]
  refine ⟨?_, ?_⟩
  · simp only [listen_stdio_lines, hd1, hu1]
    rfl
  · intro body hpn hcont
    constructor
    · rw [listen_stdio_line_cons suppress 100 body hcont, if_pos rfl, hpn]
    · rw [listen_stdio_line_cons suppress 117 body hcont, if_neg (by decide),
        if_pos rfl, hpn]

/-- C5 witness: injecting `d30` then `u30` produces press 30, sync, release 30,
sync. -/
theorem inject_press_release_witness :
    (30 : Nat) < 65536 ∧
    listen_stdio_lines {Key.mk 2}
        [100 :: decimalBytes 30 ++ [10], 117 :: decimalBytes 30 ++ [10]]
      = some ({Key.mk 2},
          [Event.Key ⟨30⟩ true, Event.Syn, Event.Key ⟨30⟩ false, Event.Syn]) :=
  ⟨by decide, (inject_press_release {Key.mk 2} 30 (by decide)).1⟩

/-- C6 counterexample: the byte slice `&line[1..line.len() - 1]` is computed
before the tag dispatch and panics on two kinds of lines the claim covers — a
line whose first character is multi-byte (the UTF-8 bytes of "é\n": byte index
1 is not a char boundary) and the bare newline line [10] (`&line[1..0]`, slice
start past its end) — so the control listener crashes instead of silently
dropping them. -/
theorem multibyte_first_char_line_panics :
    listen_stdio_line ∅ [195, 169, 10] = none ∧
    listen_stdio_line ∅ [10] = none := by
  decide

/-- C6 (amended): for every control line of at least two bytes — a first
character, a possibly empty body, and the terminating newline — whose FIRST
CHARACTER IS A SINGLE BYTE other than `'d'`, `'u'`, `'s'`, the listener makes no
state change and writes nothing, and likewise for such `d`/`u` lines with an
unparseable body; the original claim fails on lines whose first character
occupies more than one byte and on the bare newline line, which panic the
listener thread. -/
theorem unrecognized_line_silently_dropped (suppress : Finset Key) (b : Nat)
    (body : List Nat) (_hascii : b < 128) (hd : b ≠ 100) (hu : b ≠ 117)
    (hs : b ≠ 115) (hcont : isContinuationByte (body.headD 10) = false) :
    listen_stdio_line suppress (b :: body ++ [10]) = some (suppress, []) ∧
    (∀ body2 : List Nat, parseU16 body2 = none →
      isContinuationByte (body2.headD 10) = false →
      listen_stdio_line suppress (100 :: body2 ++ [10]) = some (suppress, []) ∧
      listen_stdio_line suppress (117 :: body2 ++ [10]) = some (suppress, [])) := by
  constructor
  · rw [listen_stdio_line_cons suppress b body hcont, if_neg hd, if_neg hu,
      if_neg hs]
  · intro body2 hpn hcont2
    constructor
    · rw [listen_stdio_line_cons suppress 100 body2 hcont2, if_pos rfl, hpn]
    · rw [listen_stdio_line_cons suppress 117 body2 hcont2, if_neg (by decide),
        if_pos rfl, hpn]

/-- C6 witness: the line "xyz\n" (single-byte first character `'x'`) changes
nothing and writes nothing. -/
theorem unrecognized_line_silently_dropped_witness :
    (120 : Nat) < 128 ∧
    listen_stdio_line {Key.mk 4} (120 :: [121, 122] ++ [10])
      = some ({Key.mk 4}, []) :=
  ⟨by decide,
    (unrecognized_line_silently_dropped {Key.mk 4} 120 [121, 122] (by decide)
      (by decide) (by decide) (by decide) (by decide)).1⟩

/-- C7 (refuting the claim): at end of input the `listen_stdio` loop does NOT
terminate — `read_line` returns `Ok(0)`, the cleared buffer is the empty line,
nothing changes, and the `loop` (which contains no `break` or `return`; the
step's only outcomes are continue or panic) spins on the same state forever:
after any number of iterations the end-of-input state is unchanged. -/
theorem stdio_eof_loop_spins (s : Finset Key) (w : List Event) (n : Nat) :
    stdioIter n ⟨[], s, w⟩ = some ⟨[], s, w⟩ := by
  induction n with
  | zero => rfl
  | succ m ih =>
      unfold stdioIter
      rw [stdioStep_eof]
      exact ih

/-- C8: the keyboard selector returns the first successfully opened device, in
enumeration order, whose name differs from "Plover" and which reports the probe
key KEY_A; open failures are skipped as if absent; `none` (the fatal path) is
returned exactly when no opened device qualifies. -/
theorem keyboard_selector_first_match (opened : List (Option DeviceInfo)) :
    (∀ d : DeviceInfo, find_first_keyboard opened = some d →
      (d.name ≠ UINPUT_NAME ∧ d.has_key KEY_A = true) ∧
      ∃ pre post, Device.list opened = pre ++ d :: post ∧
        ∀ x ∈ pre, ¬(x.name ≠ UINPUT_NAME ∧ x.has_key KEY_A = true)) ∧
    find_first_keyboard (none :: opened) = find_first_keyboard opened ∧
    (find_first_keyboard opened = none ↔
      ∀ d ∈ Device.list opened,
        ¬(d.name ≠ UINPUT_NAME ∧ d.has_key KEY_A = true)) := by
  refine ⟨?_, ?_, ?_⟩
  · intro d hfind
    unfold find_first_keyboard at hfind
    obtain ⟨hpd, pre, post, hsplit, hpre⟩ :=
      find?_first is_keyboard (Device.list opened) d hfind
    refine ⟨(is_keyboard_iff d).mp hpd, pre, post, hsplit, ?_⟩
    intro x hx hcontra
    have hx2 := (is_keyboard_iff x).mpr hcontra
    rw [hpre x hx] at hx2
    cases hx2
  · rfl
  · unfold find_first_keyboard
    rw [List.find?_eq_none]
    constructor
    · intro hall d hd hcontra
      exact (hall d hd) ((is_keyboard_iff d).mpr hcontra)
    · intro hall d hd hp
      exact (hall d hd) ((is_keyboard_iff d).mp hp)

/-- C8 witness: a failed open at the head of the enumeration is skipped. -/
theorem keyboard_selector_first_match_witness :
    find_first_keyboard [none, some ⟨"kbd", fun k => k == KEY_A⟩]
      = find_first_keyboard [some ⟨"kbd", fun k => k == KEY_A⟩] :=
  (keyboard_selector_first_match [some ⟨"kbd", fun k => k == KEY_A⟩]).2.1

/-- C10: every raw key event with nonzero value decodes to a pressed key event
— auto-repeat (value 2) is indistinguishable from a fresh press — so a stream
of n such events for a suppressed key yields n `"d<code>"` report lines and
forwards nothing. -/
theorem autorepeat_reports_every_event (c : Nat) (v : Int) (suppress : Finset Key)
    (n : Nat) (hv : v ≠ 0) (hs : Key.mk c ∈ suppress) :
    eventFromRaw EV_KEY c v = Event.Key ⟨c⟩ true ∧
    listen_kb_run suppress [] (List.replicate n (eventFromRaw EV_KEY c v))
      = (List.replicate n ("d" ++ Nat.repr c), []) := by
  have hb : (v != 0) = true := by simpa using hv
  have hev : eventFromRaw EV_KEY c v = Event.Key ⟨c⟩ true := by
    unfold eventFromRaw
    rw [if_neg (by decide), if_pos rfl, hb]
  refine ⟨hev, ?_⟩
  rw [hev]
  induction n with
  | zero => rfl
  | succ m ih =>
      rw [List.replicate_succ, List.replicate_succ]
      simp only [listen_kb_run,
        listen_kb_step_empty_suppressed suppress ⟨c⟩ true hs, ih]
      simp [reportLine]

/-- C10 witness: two auto-repeat events (value 2) for suppressed key 30 produce
two "d30" lines and forward nothing. -/
theorem autorepeat_reports_every_event_witness :
    (2 : Int) ≠ 0 ∧ Key.mk 30 ∈ ({Key.mk 30} : Finset Key) ∧
    listen_kb_run {Key.mk 30} [] (List.replicate 2 (eventFromRaw EV_KEY 30 2))
      = (List.replicate 2 ("d" ++ Nat.repr 30), []) :=
  ⟨by decide, by decide,
    (autorepeat_reports_every_event 30 2 {Key.mk 30} 2 (by decide) (by decide)).2⟩

/-- C9: with suppression set {30} and no modifiers held, the stream
press-30, sync, release-30, sync produces exactly the report lines "d30" and
"u30" and forwards exactly the two synchronization events. -/
theorem scenario_suppressed_press_release :
    listen_kb_run {Key.mk 30} []
        [Event.Key ⟨30⟩ true, Event.Syn, Event.Key ⟨30⟩ false, Event.Syn]
      = (["d30", "u30"], [Event.Syn, Event.Syn]) := by
  decide

end Plover
